import Mathlib

/-! ChatApp.jsx: message ordering, sending and timestamp formatting

A shallow embedding of `src/ChatApp.jsx`.  The React component keeps six state
cells (`db`, `auth`, `userId`, `messages`, `messageInput`, `isLoading`); every
handler of the component is a function on the record of those cells, and the
calls it makes to the store are returned next to the new state.
-/

namespace ChatApp

/-! ## Data model -/

/-- A Firestore `Timestamp` object, carried as the number its `toMillis()` returns
(milliseconds since the Unix epoch; Firestore accepts instants before 1970, for which
the number is negative). -/
structure Timestamp where
  millis : Int
deriving DecidableEq, Repr

/-- `timestamp.toMillis()`. -/
def Timestamp.toMillis (t : Timestamp) : Int := t.millis

/-- The exception the component can raise: the `TypeError` of calling a method that
the value does not have. -/
inductive JsError where
  | typeError
deriving DecidableEq, Repr

/-- A value stored in a document field.  Numbers are carried as integers: of a number
only its being zero (or `NaN`, which counts as zero here) is ever tested.  `object`
stands for every other object value (map, array, reference, geopoint, bytes), none of
which has a `toMillis` method. -/
inductive FieldValue where
  | null
  | bool (b : Bool)
  | number (n : Int)
  | string (s : String)
  | timestamp (t : Timestamp)
  | object
deriving DecidableEq, Repr

/-- A plain JavaScript object, given by the property writes that built it, in order.
A later write to a name replaces an earlier one. -/
structure JsObject where
  entries : List (String × FieldValue)
deriving DecidableEq, Repr

/-- The value last written under `name` among the entries, `none` when there is none. -/
def lastWrite (name : String) : List (String × FieldValue) → Option FieldValue
  | [] => none
  | (key, value) :: rest =>
    match lastWrite name rest with
    | some later => some later
    | none => if key = name then some value else none

/-- The property read `object[name]`; `none` is `undefined`. -/
def JsObject.prop (object : JsObject) (name : String) : Option FieldValue :=
  lastWrite name object.entries

/-- JavaScript truthiness of a property value: `undefined`, `null`, `false`, `0` and
the empty string are falsy, every other value is truthy. -/
def jsTruthy (v : Option FieldValue) : Bool :=
  match v with
  | none => false
  | some .null => false
  | some (.bool b) => b
  | some (.number n) => n != 0
  | some (.string str) => str != ""
  | some (.timestamp _) => true
  | some .object => true

/-- One element of `snapshot.docs`: the document id and `doc.data()`, which can hold
any fields: the collection is written by every participant. -/
structure QueryDocumentSnapshot where
  id : String
  data : JsObject
deriving DecidableEq, Repr

/-- The argument of the `onSnapshot` success callback. -/
structure QuerySnapshot where
  docs : List QueryDocumentSnapshot
deriving DecidableEq, Repr

/-- An element of the `messages` state. -/
abbrev Message := JsObject

/-- The arrow function mapped over `snapshot.docs` (lines 119-122):
`{ id: doc.id, ...doc.data() }`.  The property `id` is written first and the fields of
the document after it, so a document field named `id` replaces the document id. -/
def toMessage (doc : QueryDocumentSnapshot) : Message :=
  { entries := ("id", .string doc.id) :: doc.data.entries }

/-- The expression `x.timestamp ? x.timestamp.toMillis() : 0` of the comparator
(lines 127-128).  A `Timestamp` object is truthy whatever instant it holds; any other
truthy value has no `toMillis`, and calling it throws. -/
def sortKey (m : Message) : Except JsError Int :=
  if jsTruthy (m.prop "timestamp") then
    match m.prop "timestamp" with
    | some (.timestamp t) => .ok t.toMillis
    | _ => .error .typeError
  else .ok 0

/-- The comparator passed to `sort` (lines 125-130): `timeA - timeB`. -/
def compareMessages (a b : Message) : Except JsError Int :=
  match sortKey a with
  | .error e => .error e
  | .ok timeA =>
    match sortKey b with
    | .error e => .error e
    | .ok timeB => .ok (timeA - timeB)

/-! ## `Array.prototype.sort`

ECMAScript requires `sort` to be stable: elements the comparator reports equal keep
their relative order, and `a` is placed before `b` when `comparefn(a, b) < 0`.  For a
consistent comparator this fixes the result (see `stable_sorted_unique`); it is computed
here by stable insertion.  An exception thrown by the comparator ends the sort and
leaves it; an array of fewer than two elements is sorted without any comparison, and in
a longer one every element is compared at least once. -/

/-- Insert `x`, which stood before every element of the list, into the sorted list:
`x` passes only the elements that must come strictly before it. -/
def sortInsert {α ε : Type} (comparefn : α → α → Except ε Int) (x : α) :
    List α → Except ε (List α)
  | [] => .ok [x]
  | y :: ys =>
    match comparefn x y with
    | .error e => .error e
    | .ok c =>
      if c ≤ 0 then .ok (x :: y :: ys)
      else
        match sortInsert comparefn x ys with
        | .error e => .error e
        | .ok rest => .ok (y :: rest)

/-- The array after `array.sort(comparefn)`, or the exception the comparator threw. -/
def arraySort {α ε : Type} (comparefn : α → α → Except ε Int) :
    List α → Except ε (List α)
  | [] => .ok []
  | x :: xs =>
    match arraySort comparefn xs with
    | .error e => .error e
    | .ok sorted => sortInsert comparefn x sorted

/-- The value of `sortedMessages` in the `onSnapshot` callback (lines 119-130). -/
def sortedMessages (snapshot : QuerySnapshot) : Except JsError (List Message) :=
  let fetchedMessages := snapshot.docs.map toMessage
  arraySort compareMessages fetchedMessages

/-! ## Component state -/

/-- The object `getFirestore(app)` returns; only its presence is ever tested. -/
structure Firestore where
  projectId : String
deriving DecidableEq, Repr

/-- The object `getAuth(app)` returns. -/
structure Auth where
  projectId : String
deriving DecidableEq, Repr

/-- The `user` argument of the `onAuthStateChanged` callback, when it is not `null`. -/
structure User where
  uid : String
deriving DecidableEq, Repr

/-- The six `useState` cells of `App` (lines 53-58). -/
structure AppState where
  db : Option Firestore
  auth : Option Auth
  userId : Option String
  messages : List Message
  messageInput : String
  isLoading : Bool
deriving DecidableEq, Repr

/-- The initial values given to `useState`. -/
def AppState.initial : AppState :=
  { db := none, auth := none, userId := none, messages := [], messageInput := "",
    isLoading := true }

/-- JavaScript truthiness of a value that is a string or `null`: `!userId` holds for
`null` and for the empty string. -/
def truthy (v : Option String) : Bool :=
  match v with
  | some str => str != ""
  | none => false

/-! ## Live subscription (lines 109-138) -/

/-- The success callback of `onSnapshot` (lines 118-133): `setMessages(sortedMessages)`,
which is not reached when the sort throws. -/
def onSnapshotNext (snapshot : QuerySnapshot) (s : AppState) : Except JsError AppState :=
  match sortedMessages snapshot with
  | .error e => .error e
  | .ok sorted => .ok { s with messages := sorted }

/-- The error callback of `onSnapshot` (lines 133-135): it calls `console.error` and
no state setter. -/
def onSnapshotError (s : AppState) : AppState := s

/-! ## Initialisation and authentication (lines 62-106) -/

/-- The constant `YOUR_FIREBASE_CONFIG`; only `apiKey` is read by the component itself. -/
structure FirebaseConfig where
  apiKey : String
  authDomain : String
  projectId : String
  storageBucket : String
  messagingSenderId : String
  appId : String
deriving DecidableEq, Repr

/-- The value of `YOUR_FIREBASE_CONFIG` in the source (lines 19-26). -/
def YOUR_FIREBASE_CONFIG : FirebaseConfig :=
  { apiKey := "YOUR_API_KEY_HERE"
    authDomain := "YOUR_PROJECT_ID.firebaseapp.com"
    projectId := "YOUR_PROJECT_ID"
    storageBucket := "YOUR_PROJECT_ID.appspot.com"
    messagingSenderId := "YOUR_MESSAGING_SENDER_ID"
    appId := "YOUR_APP_ID_HERE" }

/-- How the `try` block of the first effect ends: a Firebase call throws before `setDb`
(`setLogLevel`, `initializeApp`, `getFirestore`, `getAuth`), or `onAuthStateChanged`
throws after `setDb` and `setAuth`, or the block completes with the listener registered. -/
inductive InitOutcome where
  | threwBeforeSetDb
  | threwAtListener (firestore : Firestore) (authInstance : Auth)
  | completed (firestore : Firestore) (authInstance : Auth)
deriving DecidableEq, Repr

/-- The function `authenticate` (lines 78-85); `signedIn` tells whether
`signInAnonymously` resolved.  A rejection is logged and ends the loading screen. -/
def authenticate (signedIn : Bool) (s : AppState) : AppState :=
  if signedIn then s else { s with isLoading := false }

/-- The first effect (lines 62-106).  The second component tells whether the
`onAuthStateChanged` listener is registered when the effect returns; `signedIn` is the
outcome of the initial `authenticate()` call of line 99. -/
def initEffect (config : FirebaseConfig) (outcome : InitOutcome) (signedIn : Bool)
    (s : AppState) : AppState × Bool :=
  if config.apiKey = "" ∨ config.apiKey = "YOUR_API_KEY_HERE" then
    ({ s with isLoading := false }, false)
  else
    match outcome with
    | .threwBeforeSetDb => ({ s with isLoading := false }, false)
    | .threwAtListener firestore authInstance =>
      ({ s with db := some firestore, auth := some authInstance, isLoading := false }, false)
    | .completed firestore authInstance =>
      (authenticate signedIn { s with db := some firestore, auth := some authInstance }, true)

/-- The `onAuthStateChanged` callback (lines 88-96).  With no user it calls
`authenticate()`, whose outcome is `signedIn`. -/
def onAuthStateChangedCallback (user : Option User) (signedIn : Bool) (s : AppState) :
    AppState :=
  match user with
  | some u => { s with userId := some u.uid, isLoading := false }
  | none => authenticate signedIn s

/-! ## Sending (lines 146-163) -/

/-- White space and line terminators of ECMAScript, the characters `trim` strips. -/
def isJsWhiteSpace (c : Char) : Bool :=
  let n := c.toNat
  n = 0x09 || n = 0x0A || n = 0x0B || n = 0x0C || n = 0x0D || n = 0x20 || n = 0xA0 ||
  n = 0x1680 || (0x2000 ≤ n && n ≤ 0x200A) || n = 0x2028 || n = 0x2029 || n = 0x202F ||
  n = 0x205F || n = 0x3000 || n = 0xFEFF

/-- `String.prototype.trim`. -/
def jsTrim (str : String) : String :=
  String.mk ((str.data.dropWhile isJsWhiteSpace).reverse.dropWhile isJsWhiteSpace).reverse

/-- The value written in the `timestamp` field of a new document: the sentinel
`serverTimestamp()` returns, or a concrete instant chosen by the client. -/
inductive TimestampField where
  | serverTimestamp
  | clientValue (t : Timestamp)
deriving DecidableEq, Repr

/-- The object literal passed to `addDoc` (lines 153-157). -/
structure NewDocument where
  senderId : String
  text : String
  timestamp : TimestampField
deriving DecidableEq, Repr

/-- One call `addDoc(collection(db, path), data)`. -/
structure AddDocCall where
  db : Firestore
  path : String
  data : NewDocument
deriving DecidableEq, Repr

/-- The promise `addDoc` returns is fulfilled with the new document's id or rejected. -/
inductive AddDocOutcome where
  | resolved (docId : String)
  | rejected (error : String)
deriving DecidableEq, Repr

/-- What one run of `sendMessage` leaves behind: the component state, the calls made
to the store and the lines passed to `console.error`. -/
structure SendResult where
  state : AppState
  addDocCalls : List AddDocCall
  consoleErrors : List String
deriving DecidableEq, Repr

/-- The handler `sendMessage` (lines 146-163), run against a store that answers each
insert with `addDoc call`.  `Except.error` stands for a rejected promise of the
handler itself; the `catch` clause turns whatever the `try` block throws into a
`console.error` line and a normal return. -/
def sendMessage (addDoc : AddDocCall → AddDocOutcome) (s : AppState) :
    Except String SendResult :=
  if jsTrim s.messageInput = "" ∨ s.db = none ∨ truthy s.userId = false then
    .ok { state := s, addDocCalls := [], consoleErrors := [] }
  else
    match s.db, s.userId with
    | some db, some userId =>
      let call : AddDocCall :=
        { db := db
          path := "ctins_messages"
          data :=
            { senderId := userId
              text := jsTrim s.messageInput
              timestamp := .serverTimestamp } }
      match addDoc call with
      | .resolved _ =>
        .ok { state := { s with messageInput := "" }, addDocCalls := [call],
              consoleErrors := [] }
      | .rejected error =>
        .ok { state := s, addDocCalls := [call],
              consoleErrors := ["Error sending message: " ++ error] }
    | _, _ =>
      -- not reached: the guard above has returned when `db` or `userId` is `null`
      .ok { state := s, addDocCalls := [], consoleErrors := ["Error sending message: "] }

/-- The `onChange` handler of the input (line 236): `setMessageInput(e.target.value)`. -/
def onInputChange (value : String) (s : AppState) : AppState :=
  { s with messageInput := value }

/-! ## The component as a transition system -/

/-- The component state together with what the effects have set up: whether the first
effect has run and whether its `onAuthStateChanged` listener is registered. -/
structure System where
  app : AppState
  mounted : Bool
  authListener : Bool
deriving DecidableEq, Repr

/-- The component before its first effect runs. -/
def System.initial : System :=
  { app := AppState.initial, mounted := false, authListener := false }

/-- Everything that can run a handler of the component. -/
inductive Event where
  | mount (config : FirebaseConfig) (outcome : InitOutcome) (signedIn : Bool)
  | authStateChanged (user : Option User) (signedIn : Bool)
  | snapshot (snapshot : QuerySnapshot)
  | snapshotError
  | inputChange (value : String)
  | submit (addDoc : AddDocCall → AddDocOutcome)

/-- The second effect subscribes only when `db` and `userId` are both set (line 110). -/
def subscribed (s : AppState) : Bool :=
  s.db.isSome && truthy s.userId

/-- Whether the event can occur: the first effect runs once, the auth callback needs
its listener, the snapshot callbacks need the subscription. -/
def enabled (sys : System) : Event → Bool
  | .mount _ _ _ => !sys.mounted
  | .authStateChanged _ _ => sys.authListener
  | .snapshot _ => subscribed sys.app
  | .snapshotError => subscribed sys.app
  | .inputChange _ => true
  | .submit _ => true

/-- The state of `App` after `sendMessage`, whatever promise it returned. -/
def stateAfterSend (r : Except String SendResult) (s : AppState) : AppState :=
  match r with
  | .ok result => result.state
  | .error _ => s

/-- The state of `App` after the snapshot callback: a callback that threw has set
nothing. -/
def stateAfterSnapshot (r : Except JsError AppState) (s : AppState) : AppState :=
  match r with
  | .ok next => next
  | .error _ => s

/-- The handler run by an event. -/
def handle (sys : System) : Event → System
  | .mount config outcome signedIn =>
    let r := initEffect config outcome signedIn sys.app
    { app := r.1, mounted := true, authListener := r.2 }
  | .authStateChanged user signedIn =>
    { sys with app := onAuthStateChangedCallback user signedIn sys.app }
  | .snapshot snapshot =>
    { sys with app := stateAfterSnapshot (onSnapshotNext snapshot sys.app) sys.app }
  | .snapshotError => { sys with app := onSnapshotError sys.app }
  | .inputChange value => { sys with app := onInputChange value sys.app }
  | .submit addDoc => { sys with app := stateAfterSend (sendMessage addDoc sys.app) sys.app }

/-- One step: an enabled event runs its handler, any other event is not delivered. -/
def step (sys : System) (e : Event) : System :=
  if enabled sys e then handle sys e else sys

/-- The system after a sequence of events. -/
def run (sys : System) (es : List Event) : System :=
  es.foldl step sys

/-- The states the component can be in. -/
def Reachable (sys : System) : Prop :=
  ∃ es : List Event, run System.initial es = sys

/-! ## Timestamp display (lines 33-48) -/

/-- A JavaScript `Date` as the viewer's time zone shows it: the values of
`getFullYear()`, `getMonth()` (0 is January), `getDate()`, `getHours()` and
`getMinutes()`.  Years are those a Firestore timestamp can hold. -/
structure Date where
  fullYear : Fin 10000
  month : Fin 12
  date : Fin 32
  hours : Fin 24
  minutes : Fin 60
deriving DecidableEq, Repr

/-- The day of the week of a calendar date, 0 for Sunday (Sakamoto's method). -/
def weekDay (d : Date) : Fin 7 :=
  let table : List Int := [0, 3, 2, 5, 0, 3, 5, 1, 4, 6, 2, 4]
  let y : Int := if d.month.val < 2 then (d.fullYear.val : Int) - 1 else d.fullYear.val
  let n : Int := y + y / 4 - y / 100 + y / 400 + table.getD d.month.val 0 + d.date.val
  ⟨(n % 7).toNat % 7, Nat.mod_lt _ (by decide)⟩

/-- English three-letter day names. -/
def dayName (w : Fin 7) : String :=
  match w with
  | 0 => "Sun" | 1 => "Mon" | 2 => "Tue" | 3 => "Wed" | 4 => "Thu" | 5 => "Fri" | 6 => "Sat"

/-- English three-letter month names. -/
def monthName (m : Fin 12) : String :=
  match m with
  | 0 => "Jan" | 1 => "Feb" | 2 => "Mar" | 3 => "Apr" | 4 => "May" | 5 => "Jun"
  | 6 => "Jul" | 7 => "Aug" | 8 => "Sep" | 9 => "Oct" | 10 => "Nov" | 11 => "Dec"

/-- A number below 100 as two decimal digits. -/
def pad2 (n : Nat) : String :=
  String.mk [Nat.digitChar (n / 10 % 10), Nat.digitChar (n % 10)]

/-- A number below 10000 as four decimal digits. -/
def pad4 (n : Nat) : String :=
  String.mk [Nat.digitChar (n / 1000 % 10), Nat.digitChar (n / 100 % 10),
    Nat.digitChar (n / 10 % 10), Nat.digitChar (n % 10)]

/-- `Date.prototype.toDateString` as ECMAScript defines it: day name, month name,
two-digit day and four-digit year, separated by single spaces. -/
def Date.toDateString (d : Date) : String :=
  dayName (weekDay d) ++ " " ++ monthName d.month ++ " " ++ pad2 d.date.val ++ " " ++
    pad4 d.fullYear.val

/-- Modelled from the spec: `date.toLocaleTimeString('en-US', { hour: 'numeric',
minute: '2-digit', hour12: true })` is computed by the host's internationalisation
library, which is not part of the repository.  The spec gives its shape: the hour
of the 12-hour clock without leading zero, a colon, the minute in two digits, one space
and `AM` or `PM` ("2:05 PM"). -/
def Date.toLocaleTimeString (d : Date) : String :=
  let hour12 := if d.hours.val % 12 = 0 then 12 else d.hours.val % 12
  toString hour12 ++ ":" ++ pad2 d.minutes.val ++ " " ++
    (if d.hours.val < 12 then "AM" else "PM")

/-- Modelled from the spec: `date.toLocaleDateString('en-US', { month: 'short',
day: 'numeric' })`, also computed by the host's library: the short month name, one
space and the day of the month without padding ("Mar 4"). -/
def Date.toLocaleDateString (d : Date) : String :=
  monthName d.month ++ " " ++ toString d.date.val

/-- The values `formatTimestamp` tells apart: a falsy value (`null`, `undefined`), an
object with a `toDate` method (a Firestore `Timestamp`), a `Date`, any other truthy
value. -/
inductive TimestampArg where
  | absent
  | firestore (t : Timestamp)
  | date (d : Date)
  | other
deriving DecidableEq, Repr

/-- What the function takes from its host: the `Date` a timestamp converts to in the
viewer's time zone, and the value of the `n`-th `new Date()` evaluated during a call. -/
structure Host where
  toDate : Timestamp → Date
  newDate : Nat → Date

/-- The function `formatTimestamp` (lines 33-48). -/
def formatTimestamp (host : Host) (timestamp : TimestampArg) : String :=
  match timestamp with
  | .absent => "..."
  | .firestore t =>
    let date := host.toDate t
    let now := host.newDate 0
    if now.toDateString = date.toDateString then date.toLocaleTimeString
    else date.toLocaleDateString ++ " " ++ date.toLocaleTimeString
  | .date d =>
    let date := d
    let now := host.newDate 0
    if now.toDateString = date.toDateString then date.toLocaleTimeString
    else date.toLocaleDateString ++ " " ++ date.toLocaleTimeString
  | .other =>
    let date := host.newDate 0
    let now := host.newDate 1
    if now.toDateString = date.toDateString then date.toLocaleTimeString
    else date.toLocaleDateString ++ " " ++ date.toLocaleTimeString

/-! ## Predicates used in the statements -/

/-- The comparator can read the sort key of the message: its `timestamp` is falsy or a
`Timestamp`. -/
def keyDefined (m : Message) : Bool :=
  match sortKey m with
  | .ok _ => true
  | .error _ => false

/-- The sort key of a message whose key the comparator can read. -/
def keyOf (m : Message) : Int :=
  match sortKey m with
  | .ok key => key
  | .error _ => 0

/-- The insertion of `sortInsert compareMessages` when no comparison throws. -/
def stableInsert (x : Message) : List Message → List Message
  | [] => [x]
  | y :: ys => if keyOf x - keyOf y ≤ 0 then x :: y :: ys else y :: stableInsert x ys

/-- What `arraySort compareMessages` returns when no comparison throws. -/
def stableSort : List Message → List Message
  | [] => []
  | x :: xs => stableInsert x (stableSort xs)

/-- The snapshots whose delivery runs to `setMessages`: fewer than two documents, so
that nothing is compared, or a readable sort key in every document. -/
def deliverable (snapshot : QuerySnapshot) : Bool :=
  decide (snapshot.docs.length < 2) || snapshot.docs.all (fun doc => keyDefined (toMessage doc))

/-- The list is in non-decreasing order of sort key. -/
def KeySorted (l : List Message) : Prop :=
  l.Pairwise (fun a b => keyOf a ≤ keyOf b)

/-- What holds in every reachable state: the auth listener exists only once `db` is
set, `userId` is set only by that listener and together with the end of loading, and
before the first effect nothing is set up. -/
def Inv (sys : System) : Prop :=
  (sys.authListener = true → sys.app.db.isSome = true) ∧
    (sys.app.userId.isSome = true → sys.app.db.isSome = true ∧ sys.app.isLoading = false) ∧
    (sys.mounted = false → sys.authListener = false ∧ sys.app.userId = none)

/-- The two dates fall on the same local calendar day. -/
def sameCalendarDate (a b : Date) : Bool :=
  a.fullYear = b.fullYear && a.month = b.month && a.date = b.date

/-! ## Sample data -/

/-- The fields `sendMessage` writes, as a snapshot returns them: `timestamp` is `null`
until the server has assigned it. -/
def messageData (senderId text : String) (timestamp : FieldValue) : JsObject :=
  { entries :=
      [("senderId", .string senderId), ("text", .string text), ("timestamp", timestamp)] }

/-- A snapshot with a pending message between two committed ones, delivered out of order. -/
def sampleSnapshot : QuerySnapshot :=
  { docs :=
      [ { id := "m2", data := messageData "bob" "hello" (.timestamp ⟨2000⟩) },
        { id := "m3", data := messageData "ann" "typing" .null },
        { id := "m1", data := messageData "ann" "hi" (.timestamp ⟨1000⟩) },
        { id := "m4", data := messageData "bob" "again" (.timestamp ⟨2000⟩) } ] }

/-- A snapshot whose first document is pending and whose second document carries an
instant before 1970. -/
def epochSnapshot : QuerySnapshot :=
  { docs :=
      [ { id := "p", data := messageData "ann" "new" .null },
        { id := "o", data := messageData "bob" "old" (.timestamp ⟨-1000⟩) } ] }

/-- A snapshot whose first document carries the instant 1 January 1970, 00:00 UTC, for
which `toMillis()` is 0, and whose second document is pending. -/
def zeroSnapshot : QuerySnapshot :=
  { docs :=
      [ { id := "z", data := messageData "bob" "epoch" (.timestamp ⟨0⟩) },
        { id := "p", data := messageData "ann" "new" .null } ] }

/-- A snapshot in which one document holds a string where the timestamp belongs. -/
def malformedSnapshot : QuerySnapshot :=
  { docs :=
      [ { id := "a", data := messageData "ann" "hi" (.timestamp ⟨1000⟩) },
        { id := "b", data := messageData "bob" "yo" (.string "soon") } ] }

/-- A snapshot in which two documents carry a field named `id` with the same value. -/
def overridingSnapshot : QuerySnapshot :=
  { docs :=
      [ { id := "a",
          data := { entries := [("id", .string "evil"), ("timestamp", .timestamp ⟨1000⟩)] } },
        { id := "b",
          data := { entries := [("id", .string "evil"), ("timestamp", .timestamp ⟨2000⟩)] } } ] }

/-- A configuration in which the placeholder key has been replaced. -/
def sampleConfig : FirebaseConfig :=
  { YOUR_FIREBASE_CONFIG with apiKey := "AIzaSyExample" }

/-- The component once the first effect has completed and the listener has reported
user `u1`: the live subscription is open. -/
def connectedSystem : System :=
  run System.initial
    [ .mount sampleConfig (.completed ⟨"demo"⟩ ⟨"demo"⟩) true,
      .authStateChanged (some ⟨"u1"⟩) true ]

/-- The connected component after a snapshot has arrived and the participant has typed
a message with blanks around it. -/
def composingSystem : System :=
  run connectedSystem [ .snapshot sampleSnapshot, .inputChange "  hello there \n" ]

/-- A store that accepts every insert. -/
def acceptingStore : AddDocCall → AddDocOutcome :=
  fun call => .resolved ("doc-" ++ call.data.senderId)

/-- A store that refuses every insert. -/
def refusingStore : AddDocCall → AddDocOutcome :=
  fun _ => .rejected "permission-denied"

/-- The calendar fields of an instant for a viewer whose time zone is UTC: the civil
date of the day number and the time within the day. -/
def utcDate (ms : Int) : Date :=
  let z := ms / 86400000 + 719468
  let msInDay := ms % 86400000
  let era := z / 146097
  let doe := z % 146097
  let yoe := (doe - doe / 1460 + doe / 36524 - doe / 146096) / 365
  let doy := doe - (365 * yoe + yoe / 4 - yoe / 100)
  let mp := (5 * doy + 2) / 153
  let d := doy - (153 * mp + 2) / 5 + 1
  let m := if mp < 10 then mp + 3 else mp - 9
  let y := yoe + era * 400 + (if m ≤ 2 then 1 else 0)
  { fullYear := Fin.ofNat y.toNat
    month := Fin.ofNat (m - 1).toNat
    date := Fin.ofNat d.toNat
    hours := Fin.ofNat (msInDay / 3600000).toNat
    minutes := Fin.ofNat (msInDay / 60000 % 60).toNat }

/-- A viewer in UTC for whom it is 6 November 2026, 16:20. -/
def sampleHost : Host :=
  { toDate := fun t => utcDate t.toMillis
    newDate := fun _ => utcDate 1793982000000 }


/-- The state once `sampleSnapshot` has been delivered to the freshly created component. -/
def sampleStored : AppState :=
  stateAfterSnapshot (onSnapshotNext sampleSnapshot AppState.initial) AppState.initial

/-- A log held before a snapshot arrives: a message that `sampleSnapshot` also holds
and one that it does not. -/
def sampleLog : List Message :=
  [ toMessage { id := "m1", data := messageData "ann" "hi" (.timestamp ⟨1000⟩) },
    toMessage { id := "m0", data := messageData "bob" "gone" (.timestamp ⟨500⟩) } ]

/-! ## Properties of the sort -/

theorem sortKey_of_pending (m : Message) (h : jsTruthy (m.prop "timestamp") = false) :
    sortKey m = .ok 0 := by
  unfold sortKey
  rw [h]
  rfl

theorem sortKey_of_committed (m : Message) (t : Timestamp)
    (h : m.prop "timestamp" = some (.timestamp t)) : sortKey m = .ok t.toMillis := by
  unfold sortKey
  rw [h]
  rfl

theorem sortKey_of_defined (m : Message) (h : keyDefined m = true) :
    sortKey m = .ok (keyOf m) := by
  unfold keyDefined at h
  unfold keyOf
  cases hk : sortKey m with
  | error e => rw [hk] at h; cases h
  | ok key => rfl

theorem keyDefined_of_sortKey (m : Message) (key : Int) (h : sortKey m = .ok key) :
    keyDefined m = true ∧ keyOf m = key := by
  unfold keyDefined keyOf
  rw [h]
  exact ⟨rfl, rfl⟩

theorem compareMessages_of_defined (a b : Message) (ha : keyDefined a = true)
    (hb : keyDefined b = true) : compareMessages a b = .ok (keyOf a - keyOf b) := by
  unfold compareMessages
  rw [sortKey_of_defined a ha, sortKey_of_defined b hb]

theorem compareMessages_ok_defined (a b : Message) (c : Int)
    (h : compareMessages a b = .ok c) : keyDefined a = true ∧ keyDefined b = true := by
  unfold compareMessages at h
  cases ha : sortKey a with
  | error e => rw [ha] at h; cases h
  | ok timeA =>
    rw [ha] at h
    cases hb : sortKey b with
    | error e => rw [hb] at h; cases h
    | ok timeB =>
      exact ⟨(keyDefined_of_sortKey a timeA ha).1, (keyDefined_of_sortKey b timeB hb).1⟩

theorem stableInsert_perm (x : Message) (l : List Message) :
    (stableInsert x l).Perm (x :: l) := by
  induction l with
  | nil => exact List.Perm.refl _
  | cons y ys ih =>
    unfold stableInsert
    split
    · exact List.Perm.refl _
    · exact (ih.cons y).trans (List.Perm.swap x y ys)

theorem stableSort_perm (l : List Message) : (stableSort l).Perm l := by
  induction l with
  | nil => exact List.Perm.refl _
  | cons x xs ih =>
    unfold stableSort
    exact (stableInsert_perm x _).trans (ih.cons x)

theorem stableInsert_keySorted (x : Message) (l : List Message) (h : KeySorted l) :
    KeySorted (stableInsert x l) := by
  induction l with
  | nil => simp [stableInsert, KeySorted]
  | cons y ys ih =>
    have hy : ∀ b ∈ ys, keyOf y ≤ keyOf b := (List.pairwise_cons.mp h).1
    have hys : KeySorted ys := (List.pairwise_cons.mp h).2
    unfold stableInsert
    by_cases hxy : keyOf x - keyOf y ≤ 0
    · rw [if_pos hxy]
      have hk : keyOf x ≤ keyOf y := by omega
      refine List.pairwise_cons.mpr ⟨?_, h⟩
      intro b hb
      rcases List.mem_cons.mp hb with rfl | hb
      · exact hk
      · exact le_trans hk (hy b hb)
    · rw [if_neg hxy]
      have hk : keyOf y ≤ keyOf x := by omega
      refine List.pairwise_cons.mpr ⟨?_, ih hys⟩
      intro b hb
      rcases List.mem_cons.mp ((stableInsert_perm x ys).mem_iff.mp hb) with rfl | hb
      · exact hk
      · exact hy b hb

theorem stableSort_keySorted (l : List Message) : KeySorted (stableSort l) := by
  induction l with
  | nil => simp [stableSort, KeySorted]
  | cons x xs ih => exact stableInsert_keySorted x _ ih

/-- Inserting `x` leaves the messages of every key in their order, `x` first among
those of its own key. -/
theorem stableInsert_filter (k : Int) (x : Message) (l : List Message) :
    (stableInsert x l).filter (fun m => keyOf m = k) =
      (x :: l).filter (fun m => keyOf m = k) := by
  induction l with
  | nil => rfl
  | cons y ys ih =>
    unfold stableInsert
    by_cases hxy : keyOf x - keyOf y ≤ 0
    · rw [if_pos hxy]
    · rw [if_neg hxy]
      have hk : keyOf y < keyOf x := by omega
      rw [List.filter_cons, ih]
      by_cases hx : keyOf x = k
      · have hyk : ¬ keyOf y = k := by omega
        simp [List.filter_cons, hx, hyk]
      · simp [List.filter_cons, hx]

/-- Stability: the messages of each key come out in the order they went in. -/
theorem stableSort_filter (k : Int) (l : List Message) :
    (stableSort l).filter (fun m => keyOf m = k) = l.filter (fun m => keyOf m = k) := by
  induction l with
  | nil => rfl
  | cons x xs ih =>
    unfold stableSort
    rw [stableInsert_filter, List.filter_cons, List.filter_cons, ih]

/-- A list sorted by key is fixed by its key classes: two key-sorted lists holding the
same messages of each key in the same order are equal.  With `stableSort_keySorted` and
`stableSort_filter` this makes `stableSort` the only stable sort. -/
theorem stable_sorted_unique (l₁ l₂ : List Message) (h₁ : KeySorted l₁) (h₂ : KeySorted l₂)
    (hf : ∀ k : Int, l₁.filter (fun m => keyOf m = k) = l₂.filter (fun m => keyOf m = k)) :
    l₁ = l₂ := by
  induction l₁ generalizing l₂ with
  | nil =>
    cases l₂ with
    | nil => rfl
    | cons y ys =>
      have := hf (keyOf y)
      simp [List.filter_cons] at this
  | cons x xs ih =>
    cases l₂ with
    | nil =>
      have := hf (keyOf x)
      simp [List.filter_cons] at this
    | cons y ys =>
      have hx : ∀ b ∈ xs, keyOf x ≤ keyOf b := (List.pairwise_cons.mp h₁).1
      have hy : ∀ b ∈ ys, keyOf y ≤ keyOf b := (List.pairwise_cons.mp h₂).1
      have hmem : ∀ (k : Int) (m : Message), keyOf m = k → (m ∈ x :: xs ↔ m ∈ y :: ys) := by
        intro k m hm
        have e := hf k
        have a1 : m ∈ (x :: xs).filter (fun m => keyOf m = k) ↔ m ∈ x :: xs := by
          simp [List.mem_filter, hm]
        have a2 : m ∈ (y :: ys).filter (fun m => keyOf m = k) ↔ m ∈ y :: ys := by
          simp [List.mem_filter, hm]
        rw [← a1, ← a2, e]
      have hxy : keyOf y ≤ keyOf x := by
        have : x ∈ y :: ys := (hmem _ x rfl).mp (List.mem_cons_self x xs)
        rcases List.mem_cons.mp this with rfl | hb
        · exact le_refl _
        · exact hy x hb
      have hyx : keyOf x ≤ keyOf y := by
        have : y ∈ x :: xs := (hmem _ y rfl).mpr (List.mem_cons_self y ys)
        rcases List.mem_cons.mp this with rfl | hb
        · exact le_refl _
        · exact hx y hb
      have hkey : keyOf y = keyOf x := le_antisymm hxy hyx
      have e := hf (keyOf x)
      simp only [List.filter_cons, hkey, decide_True, if_true] at e
      have hhead : x = y := (List.cons.inj e).1
      subst hhead
      congr 1
      apply ih ys (List.pairwise_cons.mp h₁).2 (List.pairwise_cons.mp h₂).2
      intro k
      have e := hf k
      by_cases hk : keyOf x = k
      · simp only [List.filter_cons, hk, decide_True, if_true] at e
        exact (List.cons.inj e).2
      · simpa [List.filter_cons, hk] using e

/-- The sorted list is the image of a rearrangement of the documents. -/
theorem stableInsert_map (a : QueryDocumentSnapshot) (ds : List QueryDocumentSnapshot) :
    ∃ ds₁ : List QueryDocumentSnapshot, ds₁.Perm (a :: ds) ∧
      stableInsert (toMessage a) (ds.map toMessage) = ds₁.map toMessage := by
  induction ds with
  | nil => exact ⟨[a], List.Perm.refl _, rfl⟩
  | cons d ds ih =>
    obtain ⟨ds₁, hp, he⟩ := ih
    simp only [List.map_cons]
    unfold stableInsert
    split
    · exact ⟨a :: d :: ds, List.Perm.refl _, rfl⟩
    · refine ⟨d :: ds₁, (hp.cons d).trans (List.Perm.swap a d ds), ?_⟩
      rw [he]
      rfl

theorem stableSort_map (docs : List QueryDocumentSnapshot) :
    ∃ ds : List QueryDocumentSnapshot, ds.Perm docs ∧
      stableSort (docs.map toMessage) = ds.map toMessage := by
  induction docs with
  | nil => exact ⟨[], List.Perm.refl _, rfl⟩
  | cons a docs ih =>
    obtain ⟨ds, hp, he⟩ := ih
    obtain ⟨ds₁, hp₁, he₁⟩ := stableInsert_map a ds
    refine ⟨ds₁, hp₁.trans (hp.cons a), ?_⟩
    simp only [List.map_cons]
    unfold stableSort
    rw [he, he₁]

/-! ## When the sort throws -/

theorem sortInsert_of_defined (x : Message) (l : List Message) (hx : keyDefined x = true)
    (hl : ∀ m ∈ l, keyDefined m = true) :
    sortInsert compareMessages x l = .ok (stableInsert x l) := by
  induction l with
  | nil => rfl
  | cons y ys ih =>
    have hy : keyDefined y = true := hl y (List.mem_cons_self y ys)
    have hys : ∀ m ∈ ys, keyDefined m = true := fun m hm => hl m (List.mem_cons_of_mem y hm)
    unfold sortInsert stableInsert
    rw [compareMessages_of_defined x y hx hy]
    dsimp only
    by_cases hxy : keyOf x - keyOf y ≤ 0
    · rw [if_pos hxy, if_pos hxy]
    · rw [if_neg hxy, if_neg hxy, ih hys]

theorem arraySort_of_defined (l : List Message) (hl : ∀ m ∈ l, keyDefined m = true) :
    arraySort compareMessages l = .ok (stableSort l) := by
  induction l with
  | nil => rfl
  | cons x xs ih =>
    have hx : keyDefined x = true := hl x (List.mem_cons_self x xs)
    have hxs : ∀ m ∈ xs, keyDefined m = true := fun m hm => hl m (List.mem_cons_of_mem x hm)
    unfold arraySort stableSort
    rw [ih hxs]
    dsimp only
    exact sortInsert_of_defined x _ hx
      (fun m hm => hxs m ((stableSort_perm xs).mem_iff.mp hm))

theorem arraySort_short (l : List Message) (h : l.length < 2) :
    arraySort compareMessages l = .ok l ∧ stableSort l = l := by
  match l, h with
  | [], _ => exact ⟨rfl, rfl⟩
  | [x], _ => exact ⟨rfl, rfl⟩
  | _ :: _ :: _, h => exact absurd h (by simp)

/-- A sort of two or more messages that returns has read every sort key. -/
theorem arraySort_ok_defined (l r : List Message) (h : arraySort compareMessages l = .ok r)
    (hlen : 2 ≤ l.length) : ∀ m ∈ l, keyDefined m = true := by
  induction l generalizing r with
  | nil => simp at hlen
  | cons x xs ih =>
    unfold arraySort at h
    cases hxs : arraySort compareMessages xs with
    | error e => rw [hxs] at h; cases h
    | ok sorted =>
      rw [hxs] at h
      dsimp only at h
      -- the sorted tail is not empty, and `x` is compared with its head
      by_cases hlen₂ : 2 ≤ xs.length
      · have hdef := ih sorted hxs hlen₂
        have hs : sorted = stableSort xs := by
          have := arraySort_of_defined xs hdef
          rw [hxs] at this
          exact Except.ok.inj this
        have hne : sorted ≠ [] := by
          intro h0
          have := (stableSort_perm xs).length_eq
          rw [← hs, h0] at this
          simp at this
          omega
        cases sorted with
        | nil => exact absurd rfl hne
        | cons y ys =>
          unfold sortInsert at h
          cases hc : compareMessages x y with
          | error e => rw [hc] at h; cases h
          | ok c =>
            have hx := (compareMessages_ok_defined x y c hc).1
            intro m hm
            rcases List.mem_cons.mp hm with rfl | hm
            · exact hx
            · exact hdef m hm
      · have hone : xs.length = 1 := by
          simp only [List.length_cons] at hlen
          omega
        match xs, hone with
        | [z], _ =>
          have hs : sorted = [z] := by
            have : arraySort compareMessages [z] = .ok [z] := rfl
            rw [hxs] at this
            exact Except.ok.inj this
          subst hs
          unfold sortInsert at h
          cases hc : compareMessages x z with
          | error e => rw [hc] at h; cases h
          | ok c =>
            have hd := compareMessages_ok_defined x z c hc
            intro m hm
            rcases List.mem_cons.mp hm with rfl | hm
            · exact hd.1
            · rcases List.mem_cons.mp hm with rfl | hm
              · exact hd.2
              · cases hm

theorem arraySort_ok_iff (l r : List Message) :
    arraySort compareMessages l = .ok r ↔
      (l.length < 2 ∨ ∀ m ∈ l, keyDefined m = true) ∧ r = stableSort l := by
  constructor
  · intro h
    by_cases hlen : l.length < 2
    · have hs := arraySort_short l hlen
      rw [hs.1] at h
      exact ⟨Or.inl hlen, by rw [hs.2]; exact (Except.ok.inj h).symm⟩
    · have hdef := arraySort_ok_defined l r h (by omega)
      have := arraySort_of_defined l hdef
      rw [h] at this
      exact ⟨Or.inr hdef, Except.ok.inj this⟩
  · rintro ⟨hcond, rfl⟩
    rcases hcond with hlen | hdef
    · have hs := arraySort_short l hlen
      rw [hs.2]
      exact hs.1
    · exact arraySort_of_defined l hdef

theorem deliverable_iff (snapshot : QuerySnapshot) :
    deliverable snapshot = true ↔
      ((snapshot.docs.map toMessage).length < 2 ∨
        ∀ m ∈ snapshot.docs.map toMessage, keyDefined m = true) := by
  unfold deliverable
  simp [List.all_eq_true]

/-- The callback reaches `setMessages` exactly on the deliverable snapshots, and what
it stores is the stable sort of the mapped documents. -/
theorem onSnapshotNext_ok_iff (snapshot : QuerySnapshot) (s next : AppState) :
    onSnapshotNext snapshot s = .ok next ↔
      deliverable snapshot = true ∧
        next = { s with messages := stableSort (snapshot.docs.map toMessage) } := by
  unfold onSnapshotNext sortedMessages
  rw [deliverable_iff]
  constructor
  · intro h
    cases hs : arraySort compareMessages (snapshot.docs.map toMessage) with
    | error e => simp only [hs] at h; cases h
    | ok sorted =>
      simp only [hs] at h
      obtain ⟨hc, rfl⟩ := (arraySort_ok_iff _ _).mp hs
      exact ⟨hc, (Except.ok.inj h).symm⟩
  · rintro ⟨hc, rfl⟩
    have := (arraySort_ok_iff _ _).mpr ⟨hc, rfl⟩
    simp only [this]

theorem onSnapshotNext_error (snapshot : QuerySnapshot) (s : AppState)
    (h : deliverable snapshot = false) : onSnapshotNext snapshot s = .error .typeError := by
  cases hr : onSnapshotNext snapshot s with
  | error e => cases e; rfl
  | ok next =>
    have := ((onSnapshotNext_ok_iff snapshot s next).mp hr).1
    rw [h] at this
    cases this

/-! ## Ordering of the log -/

theorem stored_messages (snapshot : QuerySnapshot) (s next : AppState)
    (h : onSnapshotNext snapshot s = .ok next) :
    next.messages = stableSort (snapshot.docs.map toMessage) ∧ KeySorted next.messages ∧
      (2 ≤ next.messages.length → ∀ m ∈ next.messages, keyDefined m = true) := by
  obtain ⟨hd, rfl⟩ := (onSnapshotNext_ok_iff snapshot s next).mp h
  refine ⟨rfl, stableSort_keySorted _, ?_⟩
  intro hlen m hm
  have hp := stableSort_perm (snapshot.docs.map toMessage)
  have hm' : m ∈ snapshot.docs.map toMessage := hp.mem_iff.mp hm
  have hlen' : 2 ≤ (snapshot.docs.map toMessage).length := by
    rw [← hp.length_eq]
    exact hlen
  rcases (deliverable_iff snapshot).mp hd with hshort | hdef
  · omega
  · exact hdef m hm'

/-- C1: for every snapshot delivered to the `onSnapshot` callback, the message list the
callback stores is non-decreasing by sort key (`toMillis()` of the timestamp, 0 when it
is absent) at every pair of adjacent positions: both keys can be read and the first is
at most the second. -/
theorem orderedMessages_nondecreasing (snapshot : QuerySnapshot) (s next : AppState)
    (hstored : onSnapshotNext snapshot s = .ok next) (i : Nat)
    (h : i + 1 < next.messages.length) :
    ∃ keyA keyB : Int,
      sortKey (next.messages.get ⟨i, Nat.lt_of_succ_lt h⟩) = .ok keyA ∧
      sortKey (next.messages.get ⟨i + 1, h⟩) = .ok keyB ∧ keyA ≤ keyB := by
  obtain ⟨_, hs, hdef⟩ := stored_messages snapshot s next hstored
  have hall := hdef (by omega)
  refine ⟨keyOf (next.messages.get ⟨i, Nat.lt_of_succ_lt h⟩),
    keyOf (next.messages.get ⟨i + 1, h⟩),
    sortKey_of_defined _ (hall _ (List.get_mem _ _ _)),
    sortKey_of_defined _ (hall _ (List.get_mem _ _ _)), ?_⟩
  exact (List.pairwise_iff_get.mp hs) ⟨i, Nat.lt_of_succ_lt h⟩ ⟨i + 1, h⟩ (Nat.lt_succ_self i)

theorem orderedMessages_nondecreasing_witness :
    ∃ (_ : onSnapshotNext sampleSnapshot AppState.initial = .ok sampleStored)
      (h : 1 + 1 < sampleStored.messages.length),
      ∃ keyA keyB : Int,
        sortKey (sampleStored.messages.get ⟨1, Nat.lt_of_succ_lt h⟩) = .ok keyA ∧
        sortKey (sampleStored.messages.get ⟨1 + 1, h⟩) = .ok keyB ∧ keyA ≤ keyB :=
  ⟨rfl, by decide,
    orderedMessages_nondecreasing sampleSnapshot AppState.initial sampleStored rfl 1
      (by decide)⟩

/-- C2, as stated, fails: a timestamp before 1970 has a negative `toMillis()`, so its
message is stored at position 0, before the pending message at position 1, although the
pending one came first in the snapshot; and a timestamp whose `toMillis()` is 0 ties
with a pending message, so it stays before a pending message delivered after it. -/
theorem pending_first_counterexample :
    (onSnapshotNext epochSnapshot AppState.initial).map
        (fun next => next.messages.map (fun m => m.prop "timestamp")) =
        .ok [some (.timestamp ⟨-1000⟩), some .null] ∧
      (onSnapshotNext zeroSnapshot AppState.initial).map
        (fun next => next.messages.map (fun m => m.prop "timestamp")) =
        .ok [some (.timestamp ⟨0⟩), some .null] :=
  ⟨rfl, rfl⟩

/-- C2, amended: in the stored list every pending message (absent timestamp: `null`,
`undefined` or another falsy value) stands before every message whose timestamp is
defined with `toMillis() > 0`. -/
theorem pending_before_positive (snapshot : QuerySnapshot) (s next : AppState)
    (hstored : onSnapshotNext snapshot s = .ok next) (i j : Nat)
    (hi : i < next.messages.length) (hj : j < next.messages.length)
    (hpending : jsTruthy ((next.messages.get ⟨i, hi⟩).prop "timestamp") = false)
    (t : Timestamp)
    (hdefined : (next.messages.get ⟨j, hj⟩).prop "timestamp" = some (.timestamp t))
    (hpos : 0 < t.toMillis) : i < j := by
  obtain ⟨_, hs, _⟩ := stored_messages snapshot s next hstored
  have ki : keyOf (next.messages.get ⟨i, hi⟩) = 0 :=
    (keyDefined_of_sortKey _ _ (sortKey_of_pending _ hpending)).2
  have kj : keyOf (next.messages.get ⟨j, hj⟩) = t.toMillis :=
    (keyDefined_of_sortKey _ _ (sortKey_of_committed _ t hdefined)).2
  rcases Nat.lt_trichotomy i j with hlt | heq | hgt
  · exact hlt
  · subst heq
    rw [hdefined] at hpending
    cases hpending
  · have := (List.pairwise_iff_get.mp hs) ⟨j, hj⟩ ⟨i, hi⟩ hgt
    rw [ki, kj] at this
    omega

theorem pending_before_positive_witness :
    ∃ (_ : onSnapshotNext sampleSnapshot AppState.initial = .ok sampleStored)
      (hi : 0 < sampleStored.messages.length) (hj : 1 < sampleStored.messages.length),
      jsTruthy ((sampleStored.messages.get ⟨0, hi⟩).prop "timestamp") = false ∧
      (sampleStored.messages.get ⟨1, hj⟩).prop "timestamp" = some (.timestamp ⟨1000⟩) ∧
      0 < (⟨1000⟩ : Timestamp).toMillis ∧ 0 < 1 :=
  ⟨rfl, by decide, by decide, by decide, by decide, by decide,
    pending_before_positive sampleSnapshot AppState.initial sampleStored rfl 0 1 (by decide)
      (by decide) (by decide) ⟨1000⟩ (by decide) (by decide)⟩

theorem toMessage_id (doc : QueryDocumentSnapshot) :
    (toMessage doc).prop "id" = some ((doc.data.prop "id").getD (.string doc.id)) := by
  unfold toMessage JsObject.prop
  simp only [lastWrite]
  cases lastWrite "id" doc.data.entries <;> rfl

theorem toMessage_prop (doc : QueryDocumentSnapshot) (name : String) :
    (toMessage doc).prop name =
      if name = "id" then some ((doc.data.prop "id").getD (.string doc.id))
      else doc.data.prop name := by
  by_cases hn : name = "id"
  · subst hn
    rw [if_pos rfl]
    exact toMessage_id doc
  · rw [if_neg hn]
    have hn' : ¬ "id" = name := fun h => hn h.symm
    unfold toMessage JsObject.prop
    simp only [lastWrite, if_neg hn']
    cases lastWrite name doc.data.entries <;> rfl

/-- C3, as stated, fails.  A snapshot in which one of two documents holds a string as
timestamp makes the comparator throw before `setMessages`: the log after the delivery
is the prior log, four messages that are not the snapshot's two documents.  And two
documents `a` and `b` whose data carry a field `id` with value `evil` are stored as two
messages of the same id. -/
theorem snapshot_replaces_log_counterexample :
    onSnapshotNext malformedSnapshot composingSystem.app = .error .typeError ∧
      step composingSystem (.snapshot malformedSnapshot) = composingSystem ∧
      composingSystem.app.messages.length = 4 ∧ malformedSnapshot.docs.length = 2 ∧
      overridingSnapshot.docs.map (fun doc => doc.id) = ["a", "b"] ∧
      (onSnapshotNext overridingSnapshot AppState.initial).map
        (fun next => next.messages.map (fun m => m.prop "id")) =
        .ok [some (.string "evil"), some (.string "evil")] :=
  ⟨rfl, by decide, by decide, by decide, by decide, rfl⟩

/-- C3, amended: for every prior state and every snapshot that has fewer than two
documents or in which every document's timestamp is falsy or a `Timestamp`, the callback
stores a list determined by the snapshot alone: it is the image under
`{ id: doc.id, ...doc.data() }` of a rearrangement of `snapshot.docs` (same length, each
document once, nothing of the prior log), a message reading every field as its document
does and `id` as the document id unless the data has a field `id`; the ids of the stored
messages are, up to order, those of the documents, a field `id` of the data standing in
for the document id where there is one; and delivering the same snapshot again changes
nothing. -/
theorem snapshot_replaces_log (snapshot : QuerySnapshot) (s : AppState)
    (hd : deliverable snapshot = true) :
    ∃ next : AppState, onSnapshotNext snapshot s = .ok next ∧
      (∃ ds : List QueryDocumentSnapshot, ds.Perm snapshot.docs ∧
        next.messages = ds.map toMessage) ∧
      (∀ (doc : QueryDocumentSnapshot) (name : String),
        (toMessage doc).prop name =
          if name = "id" then some ((doc.data.prop "id").getD (.string doc.id))
          else doc.data.prop name) ∧
      next.messages.length = snapshot.docs.length ∧
      (next.messages.map (fun m => m.prop "id")).Perm
        (snapshot.docs.map (fun doc => some ((doc.data.prop "id").getD (.string doc.id)))) ∧
      (∀ s₀ : AppState, ∃ next₀ : AppState, onSnapshotNext snapshot s₀ = .ok next₀ ∧
        next₀.messages = next.messages) ∧
      onSnapshotNext snapshot next = .ok next := by
  refine ⟨{ s with messages := stableSort (snapshot.docs.map toMessage) },
    (onSnapshotNext_ok_iff snapshot s _).mpr ⟨hd, rfl⟩, ?_, toMessage_prop, ?_, ?_, ?_, ?_⟩
  · exact stableSort_map snapshot.docs
  · simpa using (stableSort_perm (snapshot.docs.map toMessage)).length_eq
  · have hp := (stableSort_perm (snapshot.docs.map toMessage)).map (fun m => m.prop "id")
    have he : (snapshot.docs.map toMessage).map (fun m => m.prop "id") =
        snapshot.docs.map (fun doc => some ((doc.data.prop "id").getD (.string doc.id))) := by
      rw [List.map_map]
      exact List.map_congr_left (fun doc _ => toMessage_id doc)
    rw [he] at hp
    exact hp
  · intro s₀
    exact ⟨_, (onSnapshotNext_ok_iff snapshot s₀ _).mpr ⟨hd, rfl⟩, rfl⟩
  · exact (onSnapshotNext_ok_iff snapshot _ _).mpr ⟨hd, rfl⟩

theorem snapshot_replaces_log_witness :
    deliverable sampleSnapshot = true ∧
      ∃ next : AppState,
        onSnapshotNext sampleSnapshot { connectedSystem.app with messages := sampleLog } =
          .ok next ∧
        (∃ ds : List QueryDocumentSnapshot, ds.Perm sampleSnapshot.docs ∧
          next.messages = ds.map toMessage) ∧
        (∀ (doc : QueryDocumentSnapshot) (name : String),
          (toMessage doc).prop name =
            if name = "id" then some ((doc.data.prop "id").getD (.string doc.id))
            else doc.data.prop name) ∧
        next.messages.length = sampleSnapshot.docs.length ∧
        (next.messages.map (fun m => m.prop "id")).Perm
          (sampleSnapshot.docs.map
            (fun doc => some ((doc.data.prop "id").getD (.string doc.id)))) ∧
        (∀ s₀ : AppState, ∃ next₀ : AppState,
          onSnapshotNext sampleSnapshot s₀ = .ok next₀ ∧ next₀.messages = next.messages) ∧
        onSnapshotNext sampleSnapshot next = .ok next :=
  ⟨by decide,
    snapshot_replaces_log sampleSnapshot { connectedSystem.app with messages := sampleLog }
      (by decide)⟩

/-- C4: ties keep the delivery order.  When document `a` precedes document `b` in
`snapshot.docs` (the two form a sublist in that order) and their sort keys are equal,
the message of `a` precedes the message of `b` in the stored list. -/
theorem ties_keep_delivery_order (snapshot : QuerySnapshot) (s next : AppState)
    (hstored : onSnapshotNext snapshot s = .ok next)
    (a b : QueryDocumentSnapshot) (hab : List.Sublist [a, b] snapshot.docs)
    (hkey : sortKey (toMessage a) = sortKey (toMessage b)) :
    List.Sublist [toMessage a, toMessage b] next.messages := by
  obtain ⟨hmsgs, _, hdef⟩ := stored_messages snapshot s next hstored
  have h1 : List.Sublist [toMessage a, toMessage b] (snapshot.docs.map toMessage) :=
    hab.map toMessage
  have hp := stableSort_perm (snapshot.docs.map toMessage)
  have hlen : 2 ≤ next.messages.length := by
    rw [hmsgs, hp.length_eq]
    exact h1.length_le
  have hmem : ∀ m ∈ [toMessage a, toMessage b], keyDefined m = true := by
    intro m hm
    apply hdef hlen
    rw [hmsgs]
    exact hp.mem_iff.mpr (h1.subset hm)
  have ha := sortKey_of_defined _ (hmem (toMessage a) (by simp))
  have hb := sortKey_of_defined _ (hmem (toMessage b) (by simp))
  have hk : keyOf (toMessage a) = keyOf (toMessage b) := by
    rw [ha, hb] at hkey
    exact Except.ok.inj hkey
  have h2 := h1.filter (fun m => keyOf m = keyOf (toMessage b))
  have h3 : [toMessage a, toMessage b].filter (fun m => keyOf m = keyOf (toMessage b)) =
      [toMessage a, toMessage b] := by
    simp [List.filter_cons, hk]
  rw [h3, ← stableSort_filter, ← hmsgs] at h2
  exact h2.trans (List.filter_sublist _)

theorem ties_keep_delivery_order_witness :
    onSnapshotNext sampleSnapshot AppState.initial = .ok sampleStored ∧
      List.Sublist [sampleSnapshot.docs.get ⟨0, by decide⟩, sampleSnapshot.docs.get ⟨3, by decide⟩]
        sampleSnapshot.docs ∧
      sortKey (toMessage (sampleSnapshot.docs.get ⟨0, by decide⟩)) =
        sortKey (toMessage (sampleSnapshot.docs.get ⟨3, by decide⟩)) ∧
      List.Sublist
        [toMessage (sampleSnapshot.docs.get ⟨0, by decide⟩),
          toMessage (sampleSnapshot.docs.get ⟨3, by decide⟩)]
        sampleStored.messages :=
  ⟨rfl, by decide, rfl,
    ties_keep_delivery_order sampleSnapshot AppState.initial sampleStored rfl _ _ (by decide)
      rfl⟩

/-! ## Reachable states -/

theorem sendMessage_state (addDoc : AddDocCall → AddDocOutcome) (s : AppState) :
    ∃ r : SendResult, sendMessage addDoc s = .ok r ∧
      (r.state = s ∨ r.state = { s with messageInput := "" }) := by
  unfold sendMessage
  split
  · exact ⟨_, rfl, Or.inl rfl⟩
  · split
    · dsimp only
      split
      · exact ⟨_, rfl, Or.inr rfl⟩
      · exact ⟨_, rfl, Or.inl rfl⟩
    · exact ⟨_, rfl, Or.inl rfl⟩

theorem stateAfterSend_frame (addDoc : AddDocCall → AddDocOutcome) (s : AppState) :
    stateAfterSend (sendMessage addDoc s) s = s ∨
      stateAfterSend (sendMessage addDoc s) s = { s with messageInput := "" } := by
  obtain ⟨r, hr, h⟩ := sendMessage_state addDoc s
  rw [hr]
  exact h

theorem stateAfterSnapshot_frame (snapshot : QuerySnapshot) (s : AppState) :
    stateAfterSnapshot (onSnapshotNext snapshot s) s = s ∨
      ∃ l : List Message,
        stateAfterSnapshot (onSnapshotNext snapshot s) s = { s with messages := l } := by
  cases h : onSnapshotNext snapshot s with
  | error e => exact Or.inl rfl
  | ok next =>
    obtain ⟨_, rfl⟩ := (onSnapshotNext_ok_iff snapshot s next).mp h
    exact Or.inr ⟨_, rfl⟩

theorem inv_initial : Inv System.initial := by
  refine ⟨?_, ?_, ?_⟩ <;> simp [System.initial, AppState.initial]

theorem inv_step (sys : System) (e : Event) (h : Inv sys) : Inv (step sys e) := by
  obtain ⟨h1, h2, h3⟩ := h
  unfold step
  by_cases he : enabled sys e = true
  · rw [if_pos he]
    cases e with
    | mount config outcome signedIn =>
      have hm : sys.mounted = false := by simpa [enabled] using he
      obtain ⟨_, hu⟩ := h3 hm
      cases outcome <;> cases signedIn <;>
        by_cases hk : config.apiKey = "" ∨ config.apiKey = "YOUR_API_KEY_HERE" <;>
        simp [Inv, handle, initEffect, authenticate, hk, hu]
    | authStateChanged user signedIn =>
      have hl : sys.authListener = true := by simpa [enabled] using he
      have hdb := h1 hl
      have hmt : sys.mounted = true := by
        cases hm : sys.mounted with
        | true => rfl
        | false =>
          have := (h3 hm).1
          rw [hl] at this
          cases this
      cases user <;> cases signedIn <;>
        simp [Inv, handle, onAuthStateChangedCallback, authenticate, hdb, hl, hmt]
      intro hu
      exact (h2 hu).2
    | snapshot snapshot =>
      rcases stateAfterSnapshot_frame snapshot sys.app with hs | ⟨l, hs⟩
      · simp only [handle, hs]
        exact ⟨h1, h2, h3⟩
      · simp only [handle, hs]
        exact ⟨h1, h2, h3⟩
    | snapshotError => exact ⟨h1, h2, h3⟩
    | inputChange value => exact ⟨h1, h2, h3⟩
    | submit addDoc =>
      rcases stateAfterSend_frame addDoc sys.app with hs | hs
      · simp only [handle, hs]
        exact ⟨h1, h2, h3⟩
      · simp only [handle, hs]
        exact ⟨h1, h2, h3⟩
  · rw [if_neg he]
    exact ⟨h1, h2, h3⟩

theorem inv_run (es : List Event) (sys : System) (h : Inv sys) : Inv (run sys es) := by
  induction es generalizing sys with
  | nil => exact h
  | cons e es ih => exact ih (step sys e) (inv_step sys e h)

theorem inv_of_reachable (sys : System) (h : Reachable sys) : Inv sys := by
  obtain ⟨es, rfl⟩ := h
  exact inv_run es _ inv_initial

/-! ## Sending -/

/-- C5: validation skip.  When the composed text is empty after trimming, or the store
handle is absent, or the participant id is absent, `sendMessage` returns normally with
no call to `addDoc`, nothing logged and the state (so `messages` and `messageInput`)
exactly as before, whatever the store would have answered. -/
theorem sendMessage_validation_skip (addDoc : AddDocCall → AddDocOutcome) (s : AppState)
    (h : jsTrim s.messageInput = "" ∨ s.db = none ∨ truthy s.userId = false) :
    sendMessage addDoc s = .ok { state := s, addDocCalls := [], consoleErrors := [] } := by
  unfold sendMessage
  rw [if_pos h]

theorem sendMessage_validation_skip_witness :
    (jsTrim ({ connectedSystem.app with messageInput := "   " } : AppState).messageInput = "" ∨
        ({ connectedSystem.app with messageInput := "   " } : AppState).db = none ∨
        truthy ({ connectedSystem.app with messageInput := "   " } : AppState).userId = false) ∧
      sendMessage acceptingStore { connectedSystem.app with messageInput := "   " } =
        .ok { state := { connectedSystem.app with messageInput := "   " }, addDocCalls := [],
              consoleErrors := [] } :=
  ⟨Or.inl (by decide),
    sendMessage_validation_skip acceptingStore { connectedSystem.app with messageInput := "   " }
      (Or.inl (by decide))⟩

/-- C6: in every reachable state with a participant id present and a composed text whose
trim is non-empty, a `sendMessage` whose insert the store accepts makes exactly one
`addDoc` call, on the collection `ctins_messages`, with `senderId` the participant id,
`text` the trimmed input and `timestamp` the `serverTimestamp()` sentinel; it leaves
`messages` (and every other cell) as it was and sets `messageInput` to the empty string. -/
theorem sendMessage_success (sys : System) (hr : Reachable sys) (uid : String)
    (huid : sys.app.userId = some uid) (hne : uid ≠ "")
    (htext : jsTrim sys.app.messageInput ≠ "")
    (addDoc : AddDocCall → AddDocOutcome)
    (hok : ∀ call : AddDocCall, ∃ docId : String, addDoc call = .resolved docId) :
    ∃ db : Firestore, sys.app.db = some db ∧
      sendMessage addDoc sys.app =
        .ok { state := { sys.app with messageInput := "" }
              addDocCalls :=
                [ { db := db
                    path := "ctins_messages"
                    data :=
                      { senderId := uid
                        text := jsTrim sys.app.messageInput
                        timestamp := .serverTimestamp } } ]
              consoleErrors := [] } := by
  have hinv := inv_of_reachable sys hr
  have hdb : sys.app.db.isSome = true := (hinv.2.1 (by rw [huid]; rfl)).1
  obtain ⟨db, hdb⟩ := Option.isSome_iff_exists.mp hdb
  refine ⟨db, hdb, ?_⟩
  have hguard : ¬ (jsTrim sys.app.messageInput = "" ∨ sys.app.db = none ∨
      truthy sys.app.userId = false) := by
    rw [hdb, huid]
    simp [truthy, htext, hne]
  unfold sendMessage
  rw [if_neg hguard]
  simp only [hdb, huid]
  obtain ⟨docId, hdoc⟩ := hok
    { db := db, path := "ctins_messages",
      data := { senderId := uid, text := jsTrim sys.app.messageInput,
                timestamp := .serverTimestamp } }
  rw [hdoc]

theorem sendMessage_success_witness :
    Reachable composingSystem ∧ composingSystem.app.userId = some "u1" ∧ "u1" ≠ "" ∧
      jsTrim composingSystem.app.messageInput ≠ "" ∧
      (∀ call : AddDocCall, ∃ docId : String, acceptingStore call = .resolved docId) ∧
      ∃ db : Firestore, composingSystem.app.db = some db ∧
        sendMessage acceptingStore composingSystem.app =
          .ok { state := { composingSystem.app with messageInput := "" }
                addDocCalls :=
                  [ { db := db
                      path := "ctins_messages"
                      data :=
                        { senderId := "u1"
                          text := jsTrim composingSystem.app.messageInput
                          timestamp := .serverTimestamp } } ]
                consoleErrors := [] } :=
  have hreach : Reachable composingSystem :=
    ⟨[ .mount sampleConfig (.completed ⟨"demo"⟩ ⟨"demo"⟩) true,
       .authStateChanged (some ⟨"u1"⟩) true,
       .snapshot sampleSnapshot,
       .inputChange "  hello there \n" ], rfl⟩
  ⟨hreach, by decide, by decide, by decide, fun call => ⟨_, rfl⟩,
    sendMessage_success composingSystem hreach "u1" (by decide) (by decide) (by decide)
      acceptingStore (fun call => ⟨_, rfl⟩)⟩

/-- C7: when `addDoc` rejects, `sendMessage` still returns normally (the rejection is
caught, not propagated) and the state after the call is the state before it:
`messageInput` is not cleared and `messages` is unchanged.  At most one insert was
attempted. -/
theorem sendMessage_write_failure (addDoc : AddDocCall → AddDocOutcome) (s : AppState)
    (hrej : ∀ call : AddDocCall, ∃ error : String, addDoc call = .rejected error) :
    ∃ r : SendResult, sendMessage addDoc s = .ok r ∧ r.state = s ∧
      r.state.messageInput = s.messageInput ∧ r.state.messages = s.messages ∧
      r.addDocCalls.length ≤ 1 := by
  unfold sendMessage
  split
  · exact ⟨_, rfl, rfl, rfl, rfl, Nat.zero_le _⟩
  · split
    · rename_i db userId _ _
      obtain ⟨error, herr⟩ := hrej
        { db := db, path := "ctins_messages",
          data := { senderId := userId, text := jsTrim s.messageInput,
                    timestamp := .serverTimestamp } }
      dsimp only
      rw [herr]
      exact ⟨_, rfl, rfl, rfl, rfl, Nat.le_refl _⟩
    · exact ⟨_, rfl, rfl, rfl, rfl, Nat.zero_le _⟩

theorem sendMessage_write_failure_witness :
    (∀ call : AddDocCall, ∃ error : String, refusingStore call = .rejected error) ∧
      sendMessage refusingStore composingSystem.app =
        .ok { state := composingSystem.app
              addDocCalls :=
                [ { db := ⟨"demo"⟩, path := "ctins_messages",
                    data := { senderId := "u1", text := "hello there",
                              timestamp := .serverTimestamp } } ]
              consoleErrors := ["Error sending message: permission-denied"] } ∧
      ∃ r : SendResult, sendMessage refusingStore composingSystem.app = .ok r ∧
        r.state = composingSystem.app ∧
        r.state.messageInput = composingSystem.app.messageInput ∧
        r.state.messages = composingSystem.app.messages ∧ r.addDocCalls.length ≤ 1 :=
  ⟨fun _ => ⟨_, rfl⟩, rfl,
    sendMessage_write_failure refusingStore composingSystem.app (fun _ => ⟨_, rfl⟩)⟩

/-! ## Subscription errors and the loading flag -/

/-- C9: a subscription error does not clear the log.  The error callback leaves
`messages` (indeed the whole state) exactly as it was, and of all events only a
delivered snapshot changes `messages`, to the sorted list when the sort returns one. -/
theorem subscription_error_keeps_log (sys : System) (s : AppState) (e : Event) :
    (onSnapshotError s).messages = s.messages ∧
      step sys .snapshotError = sys ∧
      (step sys e).app.messages =
        match e with
        | .snapshot snapshot =>
          if subscribed sys.app then
            match sortedMessages snapshot with
            | .ok sorted => sorted
            | .error _ => sys.app.messages
          else sys.app.messages
        | _ => sys.app.messages := by
  refine ⟨rfl, ?_, ?_⟩
  · unfold step
    split <;> rfl
  · cases e with
    | mount config outcome signedIn =>
      unfold step
      split
      · cases outcome <;> cases signedIn <;>
          by_cases hk : config.apiKey = "" ∨ config.apiKey = "YOUR_API_KEY_HERE" <;>
          simp [handle, initEffect, authenticate, hk]
      · rfl
    | authStateChanged user signedIn =>
      unfold step
      split
      · cases user <;> cases signedIn <;> rfl
      · rfl
    | snapshot snapshot =>
      unfold step
      by_cases hs : subscribed sys.app = true
      · simp only [enabled, hs, if_true, handle, onSnapshotNext]
        cases sortedMessages snapshot <;> rfl
      · simp [enabled, hs]
    | snapshotError =>
      unfold step
      split <;> rfl
    | inputChange value =>
      unfold step
      split <;> rfl
    | submit addDoc =>
      unfold step
      split
      · rcases stateAfterSend_frame addDoc sys.app with hs | hs
        · simp only [handle, hs]
        · simp only [handle, hs]
      · rfl

/-- C10, as stated, fails: in the connected state the subscription is open, so its
error callback can fire, and the state after it is the connected state itself, with
`isLoading` false as after a successful connection. -/
theorem no_error_state_counterexample :
    enabled connectedSystem .snapshotError = true ∧
      step connectedSystem .snapshotError = connectedSystem ∧
      connectedSystem.app.isLoading = false ∧
      (onAuthStateChangedCallback (some ⟨"u1"⟩) true AppState.initial).isLoading =
        (authenticate false AppState.initial).isLoading := by
  decide

/-- C10, amended: the component has no error state.  Its only connection signal is the
boolean `isLoading`.  A subscription error can fire only in a state where `isLoading` is
already false and leaves every state cell unchanged; an authentication failure sets
`isLoading` to false, the value a successful sign-in also sets, and leaves `userId`
as it was. -/
theorem connection_signal (sys : System) (hr : Reachable sys)
    (hsub : subscribed sys.app = true) (s : AppState) (user : User) (signedIn : Bool) :
    sys.app.isLoading = false ∧ step sys .snapshotError = sys ∧
      (authenticate false s).isLoading = false ∧
      (authenticate false s).userId = s.userId ∧
      (onAuthStateChangedCallback (some user) signedIn s).isLoading = false := by
  have hinv := inv_of_reachable sys hr
  have hu : sys.app.userId.isSome = true := by
    unfold subscribed truthy at hsub
    cases hx : sys.app.userId with
    | none => rw [hx] at hsub; simp at hsub
    | some u => rfl
  refine ⟨(hinv.2.1 hu).2, ?_, rfl, rfl, rfl⟩
  unfold step
  split <;> rfl

theorem connection_signal_witness :
    Reachable connectedSystem ∧ subscribed connectedSystem.app = true ∧
      connectedSystem.app.isLoading = false ∧
      step connectedSystem .snapshotError = connectedSystem ∧
      (authenticate false AppState.initial).isLoading = false ∧
      (authenticate false AppState.initial).userId = AppState.initial.userId ∧
      (onAuthStateChangedCallback (some ⟨"u1"⟩) true AppState.initial).isLoading = false :=
  have hreach : Reachable connectedSystem := ⟨_, rfl⟩
  ⟨hreach, by decide,
    connection_signal connectedSystem hreach (by decide) AppState.initial ⟨"u1"⟩ true⟩

/-! ## Timestamp display -/

theorem digitChar_inj (i j : Nat) (hi : i < 10) (hj : j < 10)
    (h : Nat.digitChar i = Nat.digitChar j) : i = j := by
  interval_cases i <;> interval_cases j <;> first | rfl | exact absurd h (by decide)

theorem pad2_inj (n m : Nat) (hn : n < 100) (hm : m < 100) (h : pad2 n = pad2 m) : n = m := by
  have hd := congrArg String.data h
  simp only [pad2, List.cons.injEq, and_true] at hd
  have h1 := digitChar_inj _ _ (Nat.mod_lt _ (by decide)) (Nat.mod_lt _ (by decide)) hd.1
  have h2 := digitChar_inj _ _ (Nat.mod_lt _ (by decide)) (Nat.mod_lt _ (by decide)) hd.2
  omega

theorem pad4_inj (n m : Nat) (hn : n < 10000) (hm : m < 10000) (h : pad4 n = pad4 m) :
    n = m := by
  have hd := congrArg String.data h
  simp only [pad4, List.cons.injEq, and_true] at hd
  have h1 := digitChar_inj _ _ (Nat.mod_lt _ (by decide)) (Nat.mod_lt _ (by decide)) hd.1
  have h2 := digitChar_inj _ _ (Nat.mod_lt _ (by decide)) (Nat.mod_lt _ (by decide)) hd.2.1
  have h3 := digitChar_inj _ _ (Nat.mod_lt _ (by decide)) (Nat.mod_lt _ (by decide)) hd.2.2.1
  have h4 := digitChar_inj _ _ (Nat.mod_lt _ (by decide)) (Nat.mod_lt _ (by decide)) hd.2.2.2
  omega

theorem monthName_length (m : Fin 12) : (monthName m).data.length = 3 := by
  revert m
  decide

theorem monthName_inj (m n : Fin 12) (h : monthName m = monthName n) : m = n := by
  revert m n
  decide

/-- The strings `toDateString` gives two dates are equal exactly when the dates fall on
the same calendar day. -/
theorem toDateString_eq_iff (a b : Date) :
    a.toDateString = b.toDateString ↔ sameCalendarDate a b = true := by
  obtain ⟨ya, ma, da, ha, mia⟩ := a
  obtain ⟨yb, mb, db, hb, mib⟩ := b
  constructor
  · intro h
    have hd := congrArg String.data h
    simp only [Date.toDateString, String.data_append] at hd
    obtain ⟨hd, hyear⟩ := List.append_inj' hd rfl
    obtain ⟨hd, _⟩ := List.append_inj' hd rfl
    obtain ⟨hd, hday⟩ := List.append_inj' hd rfl
    obtain ⟨hd, _⟩ := List.append_inj' hd rfl
    obtain ⟨_, hmonth⟩ := List.append_inj' hd
      ((monthName_length ma).trans (monthName_length mb).symm)
    have e1 : ya = yb :=
      Fin.ext (pad4_inj _ _ ya.isLt yb.isLt (String.ext hyear))
    have e2 : ma = mb := monthName_inj _ _ (String.ext hmonth)
    have e3 : da = db :=
      Fin.ext (pad2_inj _ _ (lt_trans da.isLt (by decide)) (lt_trans db.isLt (by decide))
        (String.ext hday))
    simp [sameCalendarDate, e1, e2, e3]
  · intro h
    simp only [sameCalendarDate, Bool.and_eq_true, decide_eq_true_eq] at h
    obtain ⟨⟨e1, e2⟩, e3⟩ := h
    subst e1 e2 e3
    rfl

/-- C8: `formatTimestamp` by cases.  An absent timestamp gives the placeholder `...`; a
present one (a Firestore timestamp, or a `Date`) gives the 12-hour time of day alone when
its local calendar date is the viewer's current one, and otherwise the short month and
day, one space and that same time; any other truthy value is shown as the current time.
Today 14:05 reads `2:05 PM`, 4 March 9:30 reads `Mar 4 9:30 AM`; hours have no leading
zero, minutes two digits. -/
theorem formatTimestamp_cases (host : Host) (t : Timestamp) (d : Date) :
    formatTimestamp host .absent = "..." ∧
      formatTimestamp host (.firestore t) =
        (if sameCalendarDate (host.toDate t) (host.newDate 0) then
          (host.toDate t).toLocaleTimeString
        else (host.toDate t).toLocaleDateString ++ " " ++ (host.toDate t).toLocaleTimeString) ∧
      formatTimestamp host (.date d) =
        (if sameCalendarDate d (host.newDate 0) then d.toLocaleTimeString
        else d.toLocaleDateString ++ " " ++ d.toLocaleTimeString) ∧
      formatTimestamp host .other =
        (if sameCalendarDate (host.newDate 0) (host.newDate 1) then
          (host.newDate 0).toLocaleTimeString
        else (host.newDate 0).toLocaleDateString ++ " " ++ (host.newDate 0).toLocaleTimeString) ∧
      formatTimestamp sampleHost (.firestore ⟨1793973900000⟩) = "2:05 PM" ∧
      formatTimestamp sampleHost (.firestore ⟨1772616600000⟩) = "Mar 4 9:30 AM" ∧
      formatTimestamp sampleHost (.date ⟨2026, 10, 6, 0, 7⟩) = "12:07 AM" ∧
      formatTimestamp sampleHost (.date ⟨2025, 10, 6, 12, 0⟩) = "Nov 6 12:00 PM" ∧
      formatTimestamp sampleHost (.date ⟨2026, 11, 25, 23, 59⟩) = "Dec 25 11:59 PM" := by
  have key : ∀ x now : Date,
      (if now.toDateString = x.toDateString then x.toLocaleTimeString
        else x.toLocaleDateString ++ " " ++ x.toLocaleTimeString) =
      (if sameCalendarDate x now then x.toLocaleTimeString
        else x.toLocaleDateString ++ " " ++ x.toLocaleTimeString) := by
    intro x now
    by_cases hs : sameCalendarDate x now = true
    · rw [if_pos hs, if_pos ((toDateString_eq_iff x now).mpr hs).symm]
    · rw [if_neg hs, if_neg (fun he => hs ((toDateString_eq_iff x now).mp he.symm))]
  refine ⟨rfl, key _ _, key _ _, key _ _, ?_, ?_, ?_, ?_, ?_⟩ <;> decide

end ChatApp
